import Mathlib

/-!
Verification of the Fastdrop file-transfer core: a shallow embedding of the
Rust sources (protocol.rs, transfer.rs, network.rs, sender.rs, main.rs)
and theorems about the transport policy, chunking, framing, streaming
reassembly, ticket encoding and address filtering.

Byte values are modelled as `Nat` (with explicit bounds where overflow or
width matters), paths and strings as `List Char`, fallible operations as
`Except`/`Option`.
-/

namespace Fastdrop

/-! ## Constants (protocol.rs, transfer.rs) -/

/-- transfer.rs: `CHUNK_SIZE = 64 * 1024` (64 KiB). -/
def CHUNK_SIZE : Nat := 64 * 1024

/-- transfer.rs: `MANY_FILES_THRESHOLD = 5`. -/
def MANY_FILES_THRESHOLD : Nat := 5

/-- transfer.rs: `SMALL_TOTAL_SIZE_THRESHOLD = 100 * 1024 * 1024`. -/
def SMALL_TOTAL_SIZE_THRESHOLD : Nat := 100 * 1024 * 1024

/-- protocol.rs: `MAX_FILE_SIZE = 100 * 1024 * 1024` (declared per-file cap). -/
def MAX_FILE_SIZE : Nat := 100 * 1024 * 1024

/-- protocol.rs: `MAX_TOTAL_SIZE = 500 * 1024 * 1024` (declared aggregate cap). -/
def MAX_TOTAL_SIZE : Nat := 500 * 1024 * 1024

/-! ## Data model (protocol.rs) -/

/-- protocol.rs: `enum TransportProtocol` with unit variants `Quic` and `Tcp`. -/
inductive TransportProtocol where
  | Quic
  | Tcp
deriving DecidableEq

/-- protocol.rs: `FileMetadata` with name, size, optional SHA-256 digest.
The digest is an opaque 32-byte value, modelled as a byte list. -/
structure FileMetadata where
  name : List Char
  size : Nat
  hash : Option (List Nat)
deriving DecidableEq

/-- protocol.rs: `FileList` with the ordered file metadata and aggregate size.
The `file_data` field (raw in-memory contents) is not constructed by
`analyze_files` and is unused by every code path the claims touch, so it is
omitted from the embedding. -/
structure FileList where
  files : List FileMetadata
  total_size : Nat
deriving DecidableEq

/-- protocol.rs: `FileChunk` carrying the file index, 0-based chunk number,
the fixed per-file total chunk count, and the payload bytes. -/
structure FileChunk where
  file_index : Nat
  chunk_number : Nat
  total_chunks : Nat
  data : List Nat
deriving DecidableEq

/-- protocol.rs: `TransferRequest`. -/
structure TransferRequest where
  request_id : Nat
  ready : Bool
deriving DecidableEq

/-! ## File analysis and protocol decision (transfer.rs `analyze_files`)

The filesystem is presented to `analyze_files` as a list of path entries:
for each input path, the result of `fs::metadata` (`none` models an
unreadable path), and the result of `calculate_file_hash` (`none` models a
read failure during hashing). -/

/-- The slice of `fs::metadata` that transfer.rs consults. -/
structure PathMeta where
  is_file : Bool
  size : Nat
deriving DecidableEq

/-- One input path as `analyze_files` observes it: the final path component
(`path.file_name().and_then(to_str)`), the metadata lookup result, and the
SHA-256 digest the hashing pass would produce. -/
structure PathEntry where
  file_name : Option (List Char)
  meta : Option PathMeta
  hash : Option (List Nat)
deriving DecidableEq

/-- The metadata-gathering loop of `analyze_files`: walks the paths in
order, aborts on the first unreadable or non-regular entry, accumulates the
`FileMetadata` list and the summed `total_size`. -/
def gatherMetadata : List PathEntry → Except String (List FileMetadata × Nat)
  | [] => Except.ok ([], 0)
  | p :: rest =>
    match p.meta with
    | none => Except.error "Failed to read metadata"
    | some m =>
      if !m.is_file then Except.error "not a regular file"
      else
        match p.hash with
        | none => Except.error "Failed to read file for hashing"
        | some h =>
          match gatherMetadata rest with
          | Except.error e => Except.error e
          | Except.ok (files, total) =>
            Except.ok
              ({ name := p.file_name.getD "unknown".toList
               , size := m.size
               , hash := some h } :: files
              , m.size + total)

/-- transfer.rs `analyze_files`: bails on an empty path list, gathers
metadata, then picks QUIC when `file_count > MANY_FILES_THRESHOLD` or
`total_size < SMALL_TOTAL_SIZE_THRESHOLD`, and TCP otherwise. -/
def analyze_files (paths : List PathEntry) :
    Except String (TransportProtocol × FileList) :=
  if paths.isEmpty then Except.error "No files provided for analysis"
  else
    match gatherMetadata paths with
    | Except.error e => Except.error e
    | Except.ok (files, total_size) =>
      let protocol :=
        if paths.length > MANY_FILES_THRESHOLD ∨
            total_size < SMALL_TOTAL_SIZE_THRESHOLD
        then TransportProtocol.Quic
        else TransportProtocol.Tcp
      Except.ok (protocol, { files := files, total_size := total_size })

/-! ## Sender chunking (transfer.rs `send_file`)

The file is modelled by its byte content; `file.read(&mut buffer)` on a
regular file returns `min CHUNK_SIZE remaining` bytes, so the loop is the
recursion below: stop when the read returns 0 bytes, otherwise emit the
bytes just read as one chunk and continue. -/

/-- The read loop inside `send_file`: emits one chunk per non-empty read of
at most `CHUNK_SIZE` bytes, numbering the chunks from `chunk_number`. -/
def sendChunksLoop (file_index total_chunks chunk_number : Nat)
    (rest : List Nat) : List FileChunk :=
  if h : rest = [] then []
  else
    { file_index := file_index
    , chunk_number := chunk_number
    , total_chunks := total_chunks
    , data := rest.take CHUNK_SIZE } ::
      sendChunksLoop file_index total_chunks (chunk_number + 1)
        (rest.drop CHUNK_SIZE)
termination_by rest.length
decreasing_by
  have hlen : 0 < rest.length := List.length_pos.mpr h
  simp only [List.length_drop, CHUNK_SIZE]
  omega

/-- transfer.rs `send_file`: computes
`total_chunks = (file_size + CHUNK_SIZE - 1) / CHUNK_SIZE` before the loop,
then runs the read loop from chunk number 0. -/
def send_file (file_index : Nat) (content : List Nat) : List FileChunk :=
  let file_size := content.length
  let total_chunks := (file_size + CHUNK_SIZE - 1) / CHUNK_SIZE
  sendChunksLoop file_index total_chunks 0 content

/-! ## Streaming receiver (network.rs `receive_and_write_chunks_streaming`)

The receiver keeps a map `file_index -> open handle` plus per-index chunk
and byte counters, and a disk modelled as an association list from path to
byte content. Writes go through the handle cursor (POSIX write-at-offset),
so the model stays faithful even when two manifest entries share a name. -/

/-- An open `tokio::fs::File`: the path it was created at and its write
cursor. -/
structure OpenHandle where
  path : List Char
  cursor : Nat
deriving DecidableEq

/-- Association-list lookup (models `HashMap::get`). -/
def alistLookup {α β : Type} [DecidableEq α] : List (α × β) → α → Option β
  | [], _ => none
  | (k, v) :: rest, key => if k = key then some v else alistLookup rest key

/-- Association-list insert/overwrite (models `HashMap::insert`). -/
def alistInsert {α β : Type} [DecidableEq α] :
    List (α × β) → α → β → List (α × β)
  | [], key, v => [(key, v)]
  | (k, w) :: rest, key, v =>
    if k = key then (key, v) :: rest else (k, w) :: alistInsert rest key v

/-- Association-list removal (models `HashMap::remove`). -/
def alistRemove {α β : Type} [DecidableEq α] :
    List (α × β) → α → List (α × β)
  | [], _ => []
  | (k, v) :: rest, key =>
    if k = key then alistRemove rest key else (k, v) :: alistRemove rest key

/-- Overwrite `data` into `content` at byte offset `pos`, zero-padding if
the offset is past the end (POSIX write semantics for a file handle). -/
def writeAt (content : List Nat) (pos : Nat) (data : List Nat) : List Nat :=
  content.take pos ++ List.replicate (pos - content.length) 0 ++ data ++
    content.drop (pos + data.length)

/-- `Path::parent` of a relative path: everything before the final
separator, or the empty path when there is no separator
(`create_dir_all` of the empty path is a no-op). -/
def parentOf (p : List Char) : List Char :=
  ((p.reverse.dropWhile (fun c => c ≠ '/')).drop 1).reverse

/-- The mutable state of one streaming-receive call: the three
`HashMap`s held by `receive_and_write_chunks_streaming`, the disk, and the
directories passed to `create_dir_all`. -/
structure RecvState where
  file_handles : List (Nat × OpenHandle)
  chunks_received : List (Nat × Nat)
  total_bytes_written : List (Nat × Nat)
  disk : List (List Char × List Nat)
  dirs_created : List (List Char)
deriving DecidableEq

/-- The fresh state at the top of `receive_and_write_chunks_streaming`,
over an empty working directory. -/
def emptyRecvState : RecvState :=
  { file_handles := []
  , chunks_received := []
  , total_bytes_written := []
  , disk := []
  , dirs_created := [] }

/-- The per-chunk body after the handle for `c.file_index` exists: write
the payload at the handle cursor, bump the counters, and when
`chunk_number + 1 == total_chunks` flush (a no-op on the pure disk) and
close the handle by removing it from the map. -/
def writeAndFinish (st : RecvState) (c : FileChunk) : RecvState :=
  match alistLookup st.file_handles c.file_index with
  | none => st
  | some h =>
    let oldContent := (alistLookup st.disk h.path).getD []
    let newContent := writeAt oldContent h.cursor c.data
    let st1 : RecvState :=
      { file_handles :=
          alistInsert st.file_handles c.file_index
            { path := h.path, cursor := h.cursor + c.data.length }
      , chunks_received :=
          alistInsert st.chunks_received c.file_index
            (((alistLookup st.chunks_received c.file_index).getD 0) + 1)
      , total_bytes_written :=
          alistInsert st.total_bytes_written c.file_index
            (((alistLookup st.total_bytes_written c.file_index).getD 0) +
              c.data.length)
      , disk := alistInsert st.disk h.path newContent
      , dirs_created := st.dirs_created }
    if c.chunk_number + 1 = c.total_chunks then
      { st1 with file_handles := alistRemove st1.file_handles c.file_index }
    else st1

/-- network.rs `receive_and_write_chunks_streaming`, at the level of the
decoded chunk sequence (the framing layer is modelled separately): for each
chunk, create the output file lazily on the first chunk for its index —
rejecting an index outside the manifest — then write the payload
immediately and close the handle on the completion chunk. Returns the
final state together with `none` on a clean end of stream or `some error`
when the stream is aborted; the state at the abort is returned because the
on-disk side effects persist past the error. -/
def runStreaming (fl : FileList) :
    RecvState → List FileChunk → RecvState × Option String
  | st, [] => (st, none)
  | st, c :: rest =>
    match alistLookup st.file_handles c.file_index with
    | some _ => runStreaming fl (writeAndFinish st c) rest
    | none =>
      if fl.files.length ≤ c.file_index then
        (st, some "Invalid file_index")
      else
        let meta := fl.files.getD c.file_index
          { name := [], size := 0, hash := none }
        let st1 : RecvState :=
          { file_handles :=
              alistInsert st.file_handles c.file_index
                { path := meta.name, cursor := 0 }
          , chunks_received := alistInsert st.chunks_received c.file_index 0
          , total_bytes_written :=
              alistInsert st.total_bytes_written c.file_index 0
          , disk := alistInsert st.disk meta.name []
          , dirs_created := parentOf meta.name :: st.dirs_created }
        runStreaming fl (writeAndFinish st1 c) rest

/-! ## Wire framing (network.rs)

A peer stream is a byte sequence; `read_exact` succeeds only when enough
bytes remain, and a failing `read_exact` is the `UnexpectedEof` case. The
CBOR codec for chunk payloads is abstracted as a decoder parameter: the
framing properties are independent of the payload encoding. -/

/-- `read_exact` into an `n`-byte buffer: consumes exactly `n` bytes or
fails with `UnexpectedEof` when the stream ends first. -/
def readExact (n : Nat) (s : List Nat) : Option (List Nat × List Nat) :=
  if n ≤ s.length then some (s.take n, s.drop n) else none

/-- `u32::from_be_bytes` on four bytes. -/
def be32 (b0 b1 b2 b3 : Nat) : Nat :=
  ((b0 * 256 + b1) * 256 + b2) * 256 + b3

/-- network.rs `receive_chunks_from_stream`: loop reading a 4-byte
big-endian length then exactly that many payload bytes, decoding each
payload to a chunk. `read_exact` of the 4-byte prefix is the positional
match: fewer than 4 remaining bytes is `UnexpectedEof`, which breaks the
loop cleanly (the catch-all branch); a short payload read or a decode
failure is a hard error. The chunks pushed to the result vector are
returned in arrival order. -/
def receive_chunks_from_stream (decodeChunk : List Nat → Option FileChunk)
    (s : List Nat) : Except String (List FileChunk) :=
  match s with
  | b0 :: b1 :: b2 :: b3 :: rest =>
    match h2 : readExact (be32 b0 b1 b2 b3) rest with
    | none => Except.error "Failed to read chunk data"
    | some (payload, rest2) =>
      match decodeChunk payload with
      | none => Except.error "Failed to deserialize chunk"
      | some c =>
        match receive_chunks_from_stream decodeChunk rest2 with
        | Except.error e => Except.error e
        | Except.ok cs => Except.ok (c :: cs)
  | _ => Except.ok []
termination_by s.length
decreasing_by
  simp only [readExact] at h2
  split at h2
  · cases h2
    simp only [List.length_drop, List.length_cons]
    omega
  · cases h2

/-- network.rs `read_request`: one framed message is mandatory, so every
read failure — including `UnexpectedEof` while expecting the 4-byte length
prefix — propagates as an error. Returns the decoded request and the
unconsumed remainder of the stream. -/
def read_request (decodeReq : List Nat → Option TransferRequest)
    (s : List Nat) : Except String (TransferRequest × List Nat) :=
  match readExact 4 s with
  | none => Except.error "Failed to read length"
  | some (lenBytes, rest) =>
    let len := match lenBytes with
      | [b0, b1, b2, b3] => be32 b0 b1 b2 b3
      | _ => 0
    match readExact len rest with
    | none => Except.error "Failed to read request"
    | some (payload, rest2) =>
      match decodeReq payload with
      | none => Except.error "Failed to deserialize request"
      | some r => Except.ok (r, rest2)

/-! ## Session ticket and its CBOR encoding (protocol.rs, sender.rs, main.rs)

sender.rs builds a `SessionTicket` and serializes it with
`serde_cbor::to_vec`; main.rs deserializes the advertised bytes with
`serde_cbor::from_slice`. The codec below models serde_cbor (RFC 8949
CBOR) for exactly this struct shape: a struct is a CBOR map from field-name
text strings to field values in declaration order; `PeerId` and
`Multiaddr` serialize as their binary byte strings; a unit enum variant
serializes as its name as a text string; `u64` as a minimally-encoded
unsigned integer; the `[u8; 64]` signature (via serde_big_array) as an
array of 64 unsigned integers. The decoder consumes the same wire format
and, like `from_slice`, rejects trailing bytes. -/

/-- protocol.rs `SessionTicket`. `peer_id` holds the binary serde form of
the libp2p `PeerId` (its multihash bytes) and each address the binary form
of a `Multiaddr`. -/
structure SessionTicket where
  peer_id : List Nat
  addrs : List (List Nat)
  protocol : TransportProtocol
  nonce : Nat
  sig : List Nat
deriving DecidableEq

/-- UTF-8 bytes of an ASCII key string. -/
def strBytes (s : String) : List Nat := s.toList.map Char.toNat

/-- CBOR head: major type and minimally-encoded argument (RFC 8949). -/
def encodeHead (major n : Nat) : List Nat :=
  if n < 24 then [major * 32 + n]
  else if n < 256 then [major * 32 + 24, n]
  else if n < 65536 then [major * 32 + 25, n / 256, n % 256]
  else if n < 4294967296 then
    [major * 32 + 26, n / 16777216, n / 65536 % 256, n / 256 % 256, n % 256]
  else
    [major * 32 + 27, n / 72057594037927936, n / 281474976710656 % 256,
      n / 1099511627776 % 256, n / 4294967296 % 256, n / 16777216 % 256,
      n / 65536 % 256, n / 256 % 256, n % 256]

/-- CBOR unsigned integer (major type 0). -/
def encodeUint (n : Nat) : List Nat := encodeHead 0 n

/-- CBOR byte string (major type 2). -/
def encodeBytes (b : List Nat) : List Nat := encodeHead 2 b.length ++ b

/-- CBOR text string (major type 3) from raw UTF-8 bytes. -/
def encodeTextBytes (t : List Nat) : List Nat := encodeHead 3 t.length ++ t

/-- The text serde_cbor emits for each unit variant of
`TransportProtocol`. -/
def protocolName : TransportProtocol → List Nat
  | TransportProtocol.Quic => strBytes "Quic"
  | TransportProtocol.Tcp => strBytes "Tcp"

/-- `serde_cbor::to_vec(&ticket)` for a `SessionTicket` (sender.rs):
a 5-entry map in field declaration order. -/
def encodeTicket (t : SessionTicket) : List Nat :=
  encodeHead 5 5 ++
  encodeTextBytes (strBytes "peer_id") ++ encodeBytes t.peer_id ++
  encodeTextBytes (strBytes "addrs") ++ encodeHead 4 t.addrs.length ++
    (t.addrs.map encodeBytes).flatten ++
  encodeTextBytes (strBytes "protocol") ++
    encodeTextBytes (protocolName t.protocol) ++
  encodeTextBytes (strBytes "nonce") ++ encodeUint t.nonce ++
  encodeTextBytes (strBytes "sig") ++ encodeHead 4 t.sig.length ++
    (t.sig.map encodeUint).flatten

/-- Parse a CBOR head: returns major type, argument and remainder. -/
def parseHead : List Nat → Option (Nat × Nat × List Nat)
  | [] => none
  | b :: rest =>
    let major := b / 32
    let ai := b % 32
    if ai < 24 then some (major, ai, rest)
    else if ai = 24 then
      match rest with
      | v0 :: r => some (major, v0, r)
      | _ => none
    else if ai = 25 then
      match rest with
      | v0 :: v1 :: r => some (major, v0 * 256 + v1, r)
      | _ => none
    else if ai = 26 then
      match rest with
      | v0 :: v1 :: v2 :: v3 :: r =>
        some (major, ((v0 * 256 + v1) * 256 + v2) * 256 + v3, r)
      | _ => none
    else if ai = 27 then
      match rest with
      | v0 :: v1 :: v2 :: v3 :: v4 :: v5 :: v6 :: v7 :: r =>
        some (major,
          ((((((v0 * 256 + v1) * 256 + v2) * 256 + v3) * 256 + v4) * 256 +
            v5) * 256 + v6) * 256 + v7, r)
      | _ => none
    else none

/-- Parse a CBOR unsigned integer. -/
def parseUint (s : List Nat) : Option (Nat × List Nat) :=
  match parseHead s with
  | some (0, n, r) => some (n, r)
  | _ => none

/-- Parse a CBOR byte string. -/
def parseBytes (s : List Nat) : Option (List Nat × List Nat) :=
  match parseHead s with
  | some (2, n, r) => if n ≤ r.length then some (r.take n, r.drop n) else none
  | _ => none

/-- Parse a CBOR text string, returned as raw UTF-8 bytes. -/
def parseTextBytes (s : List Nat) : Option (List Nat × List Nat) :=
  match parseHead s with
  | some (3, n, r) => if n ≤ r.length then some (r.take n, r.drop n) else none
  | _ => none

/-- Parse a text string and require it to equal the given key. -/
def expectText (key : List Nat) (s : List Nat) : Option (List Nat) :=
  match parseTextBytes s with
  | some (t, r) => if t = key then some r else none
  | none => none

/-- Parse `n` consecutive CBOR byte strings. -/
def parseByteSeq : Nat → List Nat → Option (List (List Nat) × List Nat)
  | 0, s => some ([], s)
  | n + 1, s =>
    match parseBytes s with
    | none => none
    | some (b, r) =>
      match parseByteSeq n r with
      | none => none
      | some (bs, r2) => some (b :: bs, r2)

/-- Parse `n` consecutive CBOR unsigned integers. -/
def parseUintSeq : Nat → List Nat → Option (List Nat × List Nat)
  | 0, s => some ([], s)
  | n + 1, s =>
    match parseUint s with
    | none => none
    | some (v, r) =>
      match parseUintSeq n r with
      | none => none
      | some (vs, r2) => some (v :: vs, r2)

/-- Map a unit-variant name back to the `TransportProtocol` variant. -/
def decodeProtocolName (t : List Nat) : Option TransportProtocol :=
  if t = strBytes "Quic" then some TransportProtocol.Quic
  else if t = strBytes "Tcp" then some TransportProtocol.Tcp
  else none

/-- `serde_cbor::from_slice::<SessionTicket>` (main.rs) on the wire format
produced by `encodeTicket`: a 5-entry map with the five field keys, the
signature an array of exactly 64 unsigned integers, no trailing bytes. -/
def decodeTicket (s : List Nat) : Option SessionTicket := do
  let (m0, n0, r0) ← parseHead s
  if m0 = 5 ∧ n0 = 5 then
    let r1 ← expectText (strBytes "peer_id") r0
    let (pid, r2) ← parseBytes r1
    let r3 ← expectText (strBytes "addrs") r2
    let (m4, n4, r4) ← parseHead r3
    if m4 = 4 then
      let (addrs, r5) ← parseByteSeq n4 r4
      let r6 ← expectText (strBytes "protocol") r5
      let (pn, r7) ← parseTextBytes r6
      let proto ← decodeProtocolName pn
      let r8 ← expectText (strBytes "nonce") r7
      let (nonce, r9) ← parseUint r8
      let r10 ← expectText (strBytes "sig") r9
      let (mA, nA, r11) ← parseHead r10
      if mA = 4 ∧ nA = 64 then
        let (sig, r12) ← parseUintSeq nA r11
        if r12 = [] then
          some { peer_id := pid, addrs := addrs, protocol := proto
               , nonce := nonce, sig := sig }
        else none
      else none
    else none
  else none

/-! ## Ticket address filtering (sender.rs)

sender.rs collects the listen addresses reported by the swarm and keeps an
address for the ticket only when its textual rendering contains neither
"127.0.0.1" nor "::1"; if nothing is kept it bails with
"No valid listen addresses obtained" before building the ticket.
Addresses are modelled by their textual rendering. -/

/-- Rust `str::contains` as substring search on character lists. -/
def containsSub (hay needle : List Char) : Bool :=
  if needle.isPrefixOf hay then true
  else
    match hay with
    | [] => false
    | _ :: t => containsSub t needle

/-- The retention test from sender.rs:
`!addr_str.contains("127.0.0.1") && !addr_str.contains("::1")`. -/
def keepAddr (addr : List Char) : Bool :=
  !(containsSub addr "127.0.0.1".toList) && !(containsSub addr "::1".toList)

/-- sender.rs address collection for the ticket: keep the addresses that
pass `keepAddr`; bail when none remains. The ticket then carries exactly
the kept addresses. -/
def build_ticket_addrs (addrs : List (List Char)) :
    Except String (List (List Char)) :=
  let kept := addrs.filter keepAddr
  if kept.isEmpty then Except.error "No valid listen addresses obtained"
  else Except.ok kept

/-- Spec-side comparator for the refinement claim about loopback
filtering, following the words of the spec ("must exclude loopback-only
addresses"): a multiaddr rendering is loopback when its host is an IPv4
address in 127.0.0.0/8 or the IPv6 loopback `::1`. -/
def isLoopbackAddr (addr : List Char) : Bool :=
  ("/ip4/127.".toList.isPrefixOf addr) || ("/ip6/::1/".toList.isPrefixOf addr)

/-! ## Chunking lemmas -/

/-- Closed form of the `send_file` read loop: it emits exactly
`ceil(len/CHUNK_SIZE)` chunks, the i-th carrying chunk number `cn + i` and
the i-th `CHUNK_SIZE`-byte window of the remaining content. -/
theorem sendChunksLoop_eq (fi tc cn : Nat) (rest : List Nat) :
    sendChunksLoop fi tc cn rest =
      (List.range ((rest.length + CHUNK_SIZE - 1) / CHUNK_SIZE)).map
        (fun i =>
          { file_index := fi, chunk_number := cn + i, total_chunks := tc
          , data := (rest.drop (i * CHUNK_SIZE)).take CHUNK_SIZE }) := by
  induction cn, rest using sendChunksLoop.induct with
  | file_index => exact fi
  | total_chunks => exact tc
  | case1 cn =>
    rw [sendChunksLoop]
    norm_num [CHUNK_SIZE]
  | case2 cn rest h IH =>
    rw [sendChunksLoop, dif_neg h]
    have h1 : 1 ≤ rest.length := List.length_pos.mpr h
    have hC : CHUNK_SIZE = 65536 := rfl
    rw [IH]
    have hceil : (rest.length + CHUNK_SIZE - 1) / CHUNK_SIZE
        = ((rest.drop CHUNK_SIZE).length + CHUNK_SIZE - 1) / CHUNK_SIZE
          + 1 := by
      simp only [List.length_drop, hC]
      omega
    rw [hceil, List.range_succ_eq_map, List.map_cons, List.map_map]
    congr 1
    apply List.map_congr_left
    intro a _
    simp only [Function.comp_apply, FileChunk.mk.injEq, List.drop_drop]
    refine ⟨trivial, by omega, trivial, ?_⟩
    have harg : CHUNK_SIZE + a * CHUNK_SIZE = (a + 1) * CHUNK_SIZE := by
      simp only [hC]
      omega
    rw [harg]

/-- C4: for every file content and the fixed chunk size, `send_file`
produces exactly `ceil(S/CHUNK_SIZE)` chunks, in order of chunk number
0, 1, ...; chunk `i` carries the i-th `CHUNK_SIZE`-byte window of the file,
of exactly `CHUNK_SIZE` bytes except the last, which carries
`S mod CHUNK_SIZE` bytes (or `CHUNK_SIZE` when `S` is a multiple); and
every chunk carries the same `total_chunks` value `ceil(S/CHUNK_SIZE)`,
fixed before the first chunk is emitted. -/
theorem send_file_chunk_arithmetic (content : List Nat) (fi i : Nat) :
    (send_file fi content).length =
      (content.length + CHUNK_SIZE - 1) / CHUNK_SIZE ∧
    (i < (content.length + CHUNK_SIZE - 1) / CHUNK_SIZE →
      (send_file fi content)[i]? =
        some { file_index := fi, chunk_number := i
             , total_chunks := (content.length + CHUNK_SIZE - 1) / CHUNK_SIZE
             , data := (content.drop (i * CHUNK_SIZE)).take CHUNK_SIZE } ∧
      (i + 1 < (content.length + CHUNK_SIZE - 1) / CHUNK_SIZE →
        ((content.drop (i * CHUNK_SIZE)).take CHUNK_SIZE).length =
          CHUNK_SIZE) ∧
      (i + 1 = (content.length + CHUNK_SIZE - 1) / CHUNK_SIZE →
        ((content.drop (i * CHUNK_SIZE)).take CHUNK_SIZE).length =
          if content.length % CHUNK_SIZE = 0 then CHUNK_SIZE
          else content.length % CHUNK_SIZE)) := by
  have hC : CHUNK_SIZE = 65536 := rfl
  have heq : send_file fi content =
      (List.range ((content.length + CHUNK_SIZE - 1) / CHUNK_SIZE)).map
        (fun j =>
          { file_index := fi, chunk_number := j
          , total_chunks := (content.length + CHUNK_SIZE - 1) / CHUNK_SIZE
          , data := (content.drop (j * CHUNK_SIZE)).take CHUNK_SIZE }) := by
    show sendChunksLoop fi _ 0 content = _
    rw [sendChunksLoop_eq]
    apply List.map_congr_left
    intro a _
    simp
  refine ⟨by rw [heq]; simp, fun hi => ⟨?_, fun hlast => ?_, fun hlast => ?_⟩⟩
  · rw [heq]
    simp [List.getElem?_map, List.getElem?_range, hi]
  · simp only [List.length_take, List.length_drop]
    rw [hC] at hi hlast ⊢
    omega
  · simp only [List.length_take, List.length_drop]
    rw [hC] at hi hlast ⊢
    by_cases hz : content.length % 65536 = 0
    · rw [if_pos hz]
      omega
    · rw [if_neg hz]
      omega

/-- Witness for `send_file_chunk_arithmetic` at a 3-byte file and i = 0. -/
theorem send_file_chunk_arithmetic_witness :
    (send_file 0 [7, 7, 7]).length = 1 ∧
    (send_file 0 [7, 7, 7])[0]? =
      some { file_index := 0, chunk_number := 0, total_chunks := 1
           , data := [7, 7, 7] } := by
  obtain ⟨hlen, hidx⟩ := send_file_chunk_arithmetic [7, 7, 7] 0 0
  have h0 : 0 < (([7, 7, 7] : List Nat).length + CHUNK_SIZE - 1) /
      CHUNK_SIZE := by decide
  obtain ⟨hsome, -, -⟩ := hidx h0
  constructor
  · rw [hlen]; decide
  · rw [hsome]; decide

/-- C2: the spec requires a zero-byte file to yield exactly one chunk with
`total_chunks = 1` and an empty payload.  The code instead computes
`total_chunks = (0 + CHUNK_SIZE - 1) / CHUNK_SIZE = 0` and its read loop
breaks on the first zero-byte read, so `send_file` emits no chunk at all
for an empty file, and the completion signal
`chunk_number + 1 == total_chunks` can never fire for it. -/
theorem send_file_zero_byte_file :
    send_file 0 [] = [] ∧ (0 + CHUNK_SIZE - 1) / CHUNK_SIZE = 0 := by
  constructor
  · show sendChunksLoop 0 _ 0 [] = []
    rw [sendChunksLoop]
    simp
  · decide

/-! ## Size caps (C3) -/

/-- An input file of 200 MiB, double the declared per-file cap. -/
def oversizedEntry : PathEntry :=
  { file_name := some "big.bin".toList
  , meta := some { is_file := true, size := 200 * 1024 * 1024 }
  , hash := some (List.replicate 32 0) }

/-- An input file of exactly 100 MiB; six of them exceed the declared
aggregate cap of 500 MiB while no single one exceeds the per-file cap. -/
def midEntry : PathEntry :=
  { file_name := some "mid.bin".toList
  , meta := some { is_file := true, size := 100 * 1024 * 1024 }
  , hash := some (List.replicate 32 1) }

/-- C3: `analyze_files` enforces no size cap at all.  A single 200 MiB file
exceeds `MAX_FILE_SIZE`, yet analysis succeeds and produces a manifest; six
100 MiB files exceed `MAX_TOTAL_SIZE` in aggregate, yet analysis succeeds
and produces a manifest.  The two cap constants of protocol.rs are never
consulted by any code path. -/
theorem analyze_files_enforces_no_caps :
    MAX_FILE_SIZE < 200 * 1024 * 1024 ∧
    (∃ fl, analyze_files [oversizedEntry] =
        Except.ok (TransportProtocol.Tcp, fl) ∧
      fl.total_size = 200 * 1024 * 1024) ∧
    MAX_TOTAL_SIZE < 6 * (100 * 1024 * 1024) ∧
    (∃ fl, analyze_files (List.replicate 6 midEntry) =
        Except.ok (TransportProtocol.Quic, fl) ∧
      fl.total_size = 6 * (100 * 1024 * 1024)) := by
  refine ⟨by decide, ⟨_, rfl, by norm_num⟩, by decide, ⟨_, rfl, by norm_num⟩⟩

/-! ## Transport policy (C5) -/

/-- From a successful analysis, the chosen protocol is the decision
function of the pair (file count, total size). -/
theorem analyze_files_ok_protocol (paths : List PathEntry)
    (p : TransportProtocol) (fl : FileList)
    (h : analyze_files paths = Except.ok (p, fl)) :
    p = if paths.length > 5 ∨ fl.total_size < 100 * 1024 * 1024
        then TransportProtocol.Quic else TransportProtocol.Tcp := by
  unfold analyze_files at h
  split at h
  · exact Except.noConfusion h
  · cases hg : gatherMetadata paths with
    | error e => rw [hg] at h; exact Except.noConfusion h
    | ok v =>
      rw [hg] at h
      obtain ⟨files, total⟩ := v
      simp only [MANY_FILES_THRESHOLD, SMALL_TOTAL_SIZE_THRESHOLD,
        Except.ok.injEq, Prod.mk.injEq] at h
      obtain ⟨hp, hfl⟩ := h
      subst hfl
      exact hp.symm

/-- C5: QUIC is selected exactly when `file_count > 5` or
`total_size < 100 MiB`, TCP otherwise; and the selection is a deterministic
function of the (file count, total size) pair alone. -/
theorem transport_policy :
    (∀ (paths : List PathEntry) (p : TransportProtocol) (fl : FileList),
      analyze_files paths = Except.ok (p, fl) →
        ((p = TransportProtocol.Quic ↔
            paths.length > 5 ∨ fl.total_size < 100 * 1024 * 1024) ∧
         (p = TransportProtocol.Tcp ↔
            ¬(paths.length > 5 ∨ fl.total_size < 100 * 1024 * 1024)))) ∧
    (∀ paths₁ paths₂ p₁ fl₁ p₂ fl₂,
      analyze_files paths₁ = Except.ok (p₁, fl₁) →
      analyze_files paths₂ = Except.ok (p₂, fl₂) →
      paths₁.length = paths₂.length → fl₁.total_size = fl₂.total_size →
      p₁ = p₂) := by
  constructor
  · intro paths p fl h
    have hp := analyze_files_ok_protocol paths p fl h
    constructor
    · constructor
      · intro hq
        rw [hq] at hp
        by_contra hc
        rw [if_neg hc] at hp
        exact TransportProtocol.noConfusion hp
      · intro hc
        rw [hp, if_pos hc]
    · constructor
      · intro hq hc
        rw [hq, if_pos hc] at hp
        exact TransportProtocol.noConfusion hp
      · intro hc
        rw [hp, if_neg hc]
  · intro paths₁ paths₂ p₁ fl₁ p₂ fl₂ h₁ h₂ hcount htotal
    have e₁ := analyze_files_ok_protocol paths₁ p₁ fl₁ h₁
    have e₂ := analyze_files_ok_protocol paths₂ p₂ fl₂ h₂
    rw [e₁, e₂, hcount, htotal]

/-- Witness for `transport_policy`: the three boundary cases from the
spec.  Six files totalling 1 KiB select QUIC (count threshold); two files
totalling 200 MiB select TCP; two files totalling 50 MiB select QUIC (size
threshold). -/
theorem transport_policy_witness :
    (∃ fl, analyze_files
        ({ file_name := some "a".toList
         , meta := some { is_file := true, size := 1024 }
         , hash := some [] } ::
          List.replicate 5
            { file_name := some "b".toList
            , meta := some { is_file := true, size := 0 }
            , hash := some [] }) =
      Except.ok (TransportProtocol.Quic, fl)) ∧
    (∃ fl, analyze_files
        (List.replicate 2
          { file_name := some "c".toList
          , meta := some { is_file := true, size := 100 * 1024 * 1024 }
          , hash := some [] }) =
      Except.ok (TransportProtocol.Tcp, fl)) ∧
    (∃ fl, analyze_files
        (List.replicate 2
          { file_name := some "d".toList
          , meta := some { is_file := true, size := 25 * 1024 * 1024 }
          , hash := some [] }) =
      Except.ok (TransportProtocol.Quic, fl)) ∧
    (TransportProtocol.Quic = TransportProtocol.Quic ↔
      (6 > 5 ∨ 1024 < 100 * 1024 * 1024)) := by
  refine ⟨⟨_, rfl⟩, ⟨_, rfl⟩, ⟨_, rfl⟩, ?_⟩
  have h := (transport_policy.1
    ({ file_name := some "a".toList
     , meta := some { is_file := true, size := 1024 }
     , hash := some [] } ::
      List.replicate 5
        { file_name := some "b".toList
        , meta := some { is_file := true, size := 0 }
        , hash := some [] })
    TransportProtocol.Quic
    { files := _, total_size := 1024 } rfl).1
  simpa using h

/-! ## Association list lemmas -/

theorem alistLookup_insert {α β : Type} [DecidableEq α]
    (l : List (α × β)) (k k' : α) (v : β) :
    alistLookup (alistInsert l k v) k' =
      if k' = k then some v else alistLookup l k' := by
  induction l with
  | nil =>
    simp only [alistInsert, alistLookup]
    by_cases h : k = k'
    · simp [h]
    · simp [h, Ne.symm h]
  | cons hd tl IH =>
    obtain ⟨a, b⟩ := hd
    simp only [alistInsert]
    by_cases hak : a = k
    · subst hak
      simp only [if_pos rfl, alistLookup]
      by_cases h : a = k'
      · simp [h]
      · simp [h, Ne.symm h]
    · rw [if_neg hak]
      simp only [alistLookup, IH]
      by_cases h : a = k'
      · subst h
        simp [hak]
      · simp [h]

theorem alistLookup_remove {α β : Type} [DecidableEq α]
    (l : List (α × β)) (k k' : α) :
    alistLookup (alistRemove l k) k' =
      if k' = k then none else alistLookup l k' := by
  induction l with
  | nil =>
    simp [alistRemove, alistLookup]
  | cons hd tl IH =>
    obtain ⟨a, b⟩ := hd
    simp only [alistRemove]
    by_cases hak : a = k
    · subst hak
      rw [if_pos rfl, IH]
      by_cases h : k' = a
      · simp [h]
      · simp only [alistLookup]
        rw [if_neg h]
        have hne : ¬(a = k') := fun hh => h hh.symm
        rw [if_neg hne]
        rw [if_neg h]
    · rw [if_neg hak]
      simp only [alistLookup, IH]
      by_cases h : a = k'
      · subst h
        simp [hak]
      · simp [h]

/-! ## Streaming receiver lemmas -/

/-- A successful prefix run factors: continuing the stream continues from
the reached state. -/
theorem runStreaming_append (fl : FileList) (pre : List FileChunk) :
    ∀ (st s : RecvState) (post : List FileChunk),
      runStreaming fl st pre = (s, none) →
      runStreaming fl st (pre ++ post) = runStreaming fl s post := by
  induction pre with
  | nil =>
    intro st s post h
    simp only [runStreaming, Prod.mk.injEq] at h
    rw [List.nil_append, h.1]
  | cons c rest IH =>
    intro st s post h
    rw [List.cons_append]
    cases hl : alistLookup st.file_handles c.file_index with
    | some hdl =>
      rw [runStreaming, hl] at h
      rw [runStreaming, hl]
      exact IH _ _ _ h
    | none =>
      rw [runStreaming, hl] at h
      rw [runStreaming, hl]
      by_cases hge : fl.files.length ≤ c.file_index
      · rw [if_pos hge] at h
        simp at h
      · rw [if_neg hge] at h
        rw [if_neg hge]
        exact IH _ _ _ h

/-- `writeAndFinish` never adds a handle key that was absent before, so it
preserves boundedness of the handle keys. -/
theorem writeAndFinish_handles_bounded (fl : FileList) (st : RecvState)
    (c : FileChunk)
    (hst : ∀ k hdl, alistLookup st.file_handles k = some hdl →
      k < fl.files.length) :
    ∀ k hdl, alistLookup (writeAndFinish st c).file_handles k = some hdl →
      k < fl.files.length := by
  intro k hdl hk
  rw [writeAndFinish] at hk
  cases hl : alistLookup st.file_handles c.file_index with
  | none =>
    rw [hl] at hk
    exact hst k hdl hk
  | some h0 =>
    rw [hl] at hk
    by_cases hfin : c.chunk_number + 1 = c.total_chunks
    · simp only [if_pos hfin] at hk
      rw [alistLookup_remove] at hk
      by_cases hkc : k = c.file_index
      · rw [if_pos hkc] at hk
        exact Option.noConfusion hk
      · rw [if_neg hkc, alistLookup_insert, if_neg hkc] at hk
        exact hst k hdl hk
    · simp only [if_neg hfin] at hk
      rw [alistLookup_insert] at hk
      by_cases hkc : k = c.file_index
      · rw [hkc]
        exact hst c.file_index h0 hl
      · rw [if_neg hkc] at hk
        exact hst k hdl hk

/-- Every key in the handle map stays below the manifest length: the
create branch only ever inserts an in-range index. -/
theorem runStreaming_handles_bounded (fl : FileList)
    (chunks : List FileChunk) :
    ∀ (st : RecvState),
      (∀ k hdl, alistLookup st.file_handles k = some hdl →
        k < fl.files.length) →
      ∀ k hdl,
        alistLookup (runStreaming fl st chunks).1.file_handles k =
          some hdl →
        k < fl.files.length := by
  induction chunks with
  | nil =>
    intro st hst k hdl hk
    simp only [runStreaming] at hk
    exact hst k hdl hk
  | cons c rest IH =>
    intro st hst k hdl hk
    cases hl : alistLookup st.file_handles c.file_index with
    | some hdl0 =>
      rw [runStreaming, hl] at hk
      refine IH (writeAndFinish st c) ?_ k hdl hk
      intro k' hdl' hk'
      exact writeAndFinish_handles_bounded fl st c hst k' hdl' hk'
    | none =>
      rw [runStreaming, hl] at hk
      by_cases hge : fl.files.length ≤ c.file_index
      · rw [if_pos hge] at hk
        exact hst k hdl hk
      · rw [if_neg hge] at hk
        refine IH _ ?_ k hdl hk
        intro k' hdl' hk'
        refine writeAndFinish_handles_bounded fl _ c ?_ k' hdl' hk'
        intro k'' hdl'' hk''
        simp only [alistLookup_insert] at hk''
        by_cases hkc : k'' = c.file_index
        · omega
        · rw [if_neg hkc] at hk''
          exact hst k'' hdl'' hk''

/-! ## Out-of-range file index (C7) -/

/-- C7: after any cleanly processed prefix of the chunk stream, a chunk
whose `file_index` lies outside the manifest aborts the stream with the
protocol error, and the receiver state — in particular the disk, hence
every file completed during the prefix — is exactly the state reached at
the end of the prefix. -/
theorem runStreaming_out_of_range_aborts (fl : FileList) (st0 s : RecvState)
    (pre : List FileChunk) (bad : FileChunk)
    (hpre : runStreaming fl st0 pre = (s, none))
    (hbad : fl.files.length ≤ bad.file_index)
    (hst0 : st0.file_handles = []) :
    runStreaming fl st0 (pre ++ [bad]) = (s, some "Invalid file_index") ∧
    (runStreaming fl st0 (pre ++ [bad])).1.disk = s.disk := by
  have hbound := runStreaming_handles_bounded fl pre st0
    (by rw [hst0]; intro k hdl hk; exact Option.noConfusion hk)
  rw [hpre] at hbound
  have hnone : alistLookup s.file_handles bad.file_index = none := by
    cases hl : alistLookup s.file_handles bad.file_index with
    | none => rfl
    | some hdl =>
      have := hbound bad.file_index hdl hl
      omega
  have hrun : runStreaming fl st0 (pre ++ [bad]) =
      (s, some "Invalid file_index") := by
    rw [runStreaming_append fl pre st0 s [bad] hpre]
    rw [runStreaming, hnone, if_pos hbad]
  exact ⟨hrun, by rw [hrun]⟩

/-- 3-file manifest used in the C7 witness. -/
def c7Manifest : FileList :=
  { files :=
      [ { name := "a".toList, size := 1, hash := none }
      , { name := "b".toList, size := 1, hash := none }
      , { name := "c".toList, size := 1, hash := none } ]
  , total_size := 3 }

/-- Two single-chunk files received and completed before the bad chunk. -/
def c7Pre : List FileChunk :=
  [ { file_index := 0, chunk_number := 0, total_chunks := 1, data := [10] }
  , { file_index := 1, chunk_number := 0, total_chunks := 1, data := [20] } ]

/-- The state after the two good chunks of `c7Pre`. -/
def c7PreState : RecvState :=
  (runStreaming c7Manifest emptyRecvState c7Pre).1

/-- Witness for `runStreaming_out_of_range_aborts`: a chunk with
`file_index = 99` against the 3-file manifest aborts the stream, and the
two files written so far keep their bytes on disk. -/
theorem runStreaming_out_of_range_aborts_witness :
    runStreaming c7Manifest emptyRecvState
        (c7Pre ++
          [{ file_index := 99, chunk_number := 0, total_chunks := 1
           , data := [30] }]) =
      (c7PreState, some "Invalid file_index") ∧
    alistLookup c7PreState.disk "a".toList = some [10] ∧
    alistLookup c7PreState.disk "b".toList = some [20] := by
  refine ⟨?_, rfl, rfl⟩
  exact (runStreaming_out_of_range_aborts c7Manifest emptyRecvState
    c7PreState c7Pre
    { file_index := 99, chunk_number := 0, total_chunks := 1, data := [30] }
    rfl (by decide) rfl).1

/-! ## No hash verification in the streaming receiver (C1) -/

/-- Single-file manifest declaring the all-zero digest. -/
def c1ManifestA : FileList :=
  { files := [{ name := "a".toList, size := 1
              , hash := some (List.replicate 32 0) }]
  , total_size := 1 }

/-- The same manifest but declaring the all-seven digest. -/
def c1ManifestB : FileList :=
  { files := [{ name := "a".toList, size := 1
              , hash := some (List.replicate 32 7) }]
  , total_size := 1 }

/-- C1, evaluated at the failing input: on the completion chunk
(`chunk_number + 1 = total_chunks`) the streaming receiver does flush and
close the handle (the handle map ends empty), but it performs no digest
comparison whatsoever: the run succeeds with the byte `42` on disk both
under the all-zero declared hash and under the all-seven declared hash.
The two declared digests differ, and the true SHA-256 of the single byte
`42` is one fixed value, so at least one of the two runs is a hash
mismatch that the engine nevertheless reports as success — the spec
instead requires a loud error.  (The digest-comparison logic exists only
in `FileReceiver::finalize` in transfer.rs, which no code path calls.) -/
theorem streaming_receiver_skips_hash_verification :
    c1ManifestA.files ≠ c1ManifestB.files ∧
    runStreaming c1ManifestA emptyRecvState
        [{ file_index := 0, chunk_number := 0, total_chunks := 1
         , data := [42] }] =
      ({ file_handles := []
       , chunks_received := [(0, 1)]
       , total_bytes_written := [(0, 1)]
       , disk := [("a".toList, [42])]
       , dirs_created := [[]] }, none) ∧
    runStreaming c1ManifestB emptyRecvState
        [{ file_index := 0, chunk_number := 0, total_chunks := 1
         , data := [42] }] =
      ({ file_handles := []
       , chunks_received := [(0, 1)]
       , total_bytes_written := [(0, 1)]
       , disk := [("a".toList, [42])]
       , dirs_created := [[]] }, none) := by
  refine ⟨by decide, rfl, rfl⟩

/-! ## Verbatim output paths (C10) -/

/-- C10: the first chunk for an in-range index makes the receiver create
the output file at the path obtained by reading the manifest entry name
verbatim — no sanitization of any kind — after passing the parent
directory that the name string implies to `create_dir_all`; the payload is
then written at that path. -/
theorem runStreaming_uses_manifest_name_verbatim (fl : FileList)
    (st : RecvState) (c : FileChunk)
    (hnew : alistLookup st.file_handles c.file_index = none)
    (hlt : c.file_index < fl.files.length) :
    (runStreaming fl st [c]).2 = none ∧
    (runStreaming fl st [c]).1.dirs_created =
      parentOf (fl.files.getD c.file_index
        { name := [], size := 0, hash := none }).name :: st.dirs_created ∧
    alistLookup (runStreaming fl st [c]).1.disk
        (fl.files.getD c.file_index
          { name := [], size := 0, hash := none }).name =
      some (writeAt [] 0 c.data) := by
  have hge : ¬fl.files.length ≤ c.file_index := by omega
  by_cases hfin : c.chunk_number + 1 = c.total_chunks <;>
    simp [runStreaming, writeAndFinish, hnew, hge, hfin,
      alistLookup_insert, alistLookup_remove, writeAt]

/-- Manifest whose single entry carries a path-traversal name. -/
def c10Manifest : FileList :=
  { files := [{ name := "../evil".toList, size := 1, hash := none }]
  , total_size := 1 }

/-- Witness for `runStreaming_uses_manifest_name_verbatim`: with the
sender-supplied name `../evil`, the receiver creates the parent directory
`..` and writes the payload at the path `../evil`, outside its working
directory. -/
theorem runStreaming_uses_manifest_name_verbatim_witness :
    (runStreaming c10Manifest emptyRecvState
        [{ file_index := 0, chunk_number := 0, total_chunks := 1
         , data := [9] }]).1.dirs_created = ["..".toList] ∧
    alistLookup (runStreaming c10Manifest emptyRecvState
        [{ file_index := 0, chunk_number := 0, total_chunks := 1
         , data := [9] }]).1.disk "../evil".toList = some [9] := by
  obtain ⟨-, h2, h3⟩ := runStreaming_uses_manifest_name_verbatim c10Manifest
    emptyRecvState
    { file_index := 0, chunk_number := 0, total_chunks := 1, data := [9] }
    rfl (by decide)
  constructor
  · rw [h2]
    decide
  · exact h3

/-! ## Framing behaviour (C6) -/

/-- C6 counterexample: `read_request` is a framed-message read operation,
and on an already-closed stream (end of stream while expecting the 4-byte
length prefix) it returns a hard error instead of treating the close as
clean — refuting the claim that every framed-message read operation treats
end-of-stream at the length prefix as a clean close. -/
theorem read_request_eof_at_length_is_error :
    read_request (fun _ => none) [] =
      Except.error "Failed to read length" := rfl

/-- C6 amended: every framed read takes exactly 4 bytes as a big-endian
u32 length and then exactly that many payload bytes before decoding; in
the chunk-receive loops end-of-stream at the length prefix is a clean
close and a short payload read is a hard error, while `read_request`,
which must produce a message, errors on end-of-stream at the length
prefix. -/
theorem framed_read_behavior (d : List Nat → Option FileChunk)
    (dr : List Nat → Option TransferRequest)
    (s rest : List Nat) (b0 b1 b2 b3 : Nat) :
    (s.length < 4 → receive_chunks_from_stream d s = Except.ok []) ∧
    (rest.length < be32 b0 b1 b2 b3 →
      receive_chunks_from_stream d (b0 :: b1 :: b2 :: b3 :: rest) =
        Except.error "Failed to read chunk data") ∧
    (be32 b0 b1 b2 b3 ≤ rest.length →
      receive_chunks_from_stream d (b0 :: b1 :: b2 :: b3 :: rest) =
        match d (rest.take (be32 b0 b1 b2 b3)) with
        | none => Except.error "Failed to deserialize chunk"
        | some c =>
          match receive_chunks_from_stream d
              (rest.drop (be32 b0 b1 b2 b3)) with
          | Except.error e => Except.error e
          | Except.ok cs => Except.ok (c :: cs)) ∧
    (s.length < 4 → read_request dr s = Except.error "Failed to read length") := by
  refine ⟨?_, ?_, ?_, ?_⟩
  · intro h
    match s, h with
    | [], _ => simp [receive_chunks_from_stream]
    | [a], _ => simp [receive_chunks_from_stream]
    | [a, b], _ => simp [receive_chunks_from_stream]
    | [a, b, c], _ => simp [receive_chunks_from_stream]
    | a :: b :: c :: dd :: tl, h => simp at h; omega
  · intro h
    have hnone : readExact (be32 b0 b1 b2 b3) rest = none := by
      rw [readExact, if_neg (by omega)]
    rw [receive_chunks_from_stream]
    split
    · rfl
    · rename_i payload rest2 heq
      rw [hnone] at heq
      exact Option.noConfusion heq
  · intro h
    have hsome : readExact (be32 b0 b1 b2 b3) rest =
        some (rest.take (be32 b0 b1 b2 b3),
          rest.drop (be32 b0 b1 b2 b3)) := by
      rw [readExact, if_pos h]
    rw [receive_chunks_from_stream]
    split
    · rename_i heq
      rw [hsome] at heq
      exact Option.noConfusion heq
    · rename_i payload rest2 heq
      rw [hsome] at heq
      obtain ⟨hpl, hr2⟩ := Prod.mk.inj (Option.some.inj heq)
      rw [hpl, hr2]
  · intro h
    have hre : readExact 4 s = none := by
      rw [readExact, if_neg (by omega)]
    simp [read_request, hre]

/-- Witness for `framed_read_behavior`: a 2-byte stream closes cleanly in
the chunk loop but errors in `read_request`; a declared length of 5 with 1
remaining byte is a truncation error; a well-formed frame of length 1 is
decoded from exactly its payload byte. -/
theorem framed_read_behavior_witness :
    receive_chunks_from_stream
        (fun l => some { file_index := 0, chunk_number := 0
                       , total_chunks := 1, data := l }) [1, 2] =
      Except.ok [] ∧
    receive_chunks_from_stream
        (fun l => some { file_index := 0, chunk_number := 0
                       , total_chunks := 1, data := l }) [0, 0, 0, 5, 1] =
      Except.error "Failed to read chunk data" ∧
    receive_chunks_from_stream
        (fun l => some { file_index := 0, chunk_number := 0
                       , total_chunks := 1, data := l }) [0, 0, 0, 1, 9] =
      Except.ok [{ file_index := 0, chunk_number := 0, total_chunks := 1
                 , data := [9] }] ∧
    read_request (fun _ => none) [1, 2] =
      Except.error "Failed to read length" := by
  have A := framed_read_behavior
    (fun l => some { file_index := 0, chunk_number := 0
                   , total_chunks := 1, data := l })
    (fun _ => none) [1, 2] [1] 0 0 0 5
  have B := framed_read_behavior
    (fun l => some { file_index := 0, chunk_number := 0
                   , total_chunks := 1, data := l })
    (fun _ => none) [1, 2] [9] 0 0 0 1
  refine ⟨A.1 (by decide), A.2.1 (by decide), ?_, A.2.2.2 (by decide)⟩
  have h3 := B.2.2.1 (by decide)
  rw [h3]
  simp [receive_chunks_from_stream, be32, readExact]

/-! ## Loopback filtering (C9) -/

/-- A substring occurrence makes `containsSub` report true. -/
theorem containsSub_of_substring (needle : List Char) :
    ∀ hay : List Char, needle <:+: hay → containsSub hay needle = true := by
  intro hay
  induction hay with
  | nil =>
    intro h
    have hn : needle = [] := List.eq_nil_of_infix_nil h
    subst hn
    rfl
  | cons a t IH =>
    intro h
    rw [List.infix_cons_iff] at h
    rcases h with hp | hi
    · rw [containsSub, if_pos (List.isPrefixOf_iff_prefix.mpr hp)]
    · rw [containsSub]
      by_cases hb : needle.isPrefixOf (a :: t)
      · rw [if_pos hb]
      · rw [if_neg hb]
        exact IH hi

/-- C9 counterexample: `/ip4/127.0.0.2/tcp/1` is a loopback address (its
host is in 127.0.0.0/8), yet its text contains neither "127.0.0.1" nor
"::1", so the sender keeps it and the resulting ticket carries a loopback
address — refuting both halves of the claim that every loopback address is
filtered out. -/
theorem loopback_filter_counterexample :
    isLoopbackAddr "/ip4/127.0.0.2/tcp/1".toList = true ∧
    build_ticket_addrs ["/ip4/127.0.0.2/tcp/1".toList] =
      Except.ok ["/ip4/127.0.0.2/tcp/1".toList] := by
  exact ⟨rfl, rfl⟩

/-- C9 amended: the ticket keeps exactly the addresses whose textual form
contains neither "127.0.0.1" nor "::1" as a substring — in particular any
address containing either substring, such as the canonical renderings of
the IPv4 and IPv6 loopback listen addresses, is excluded — and when no
address survives the filter, ticket construction fails with an error
before any ticket is advertised. -/
theorem build_ticket_addrs_filtering (addrs : List (List Char)) :
    (∀ kept, build_ticket_addrs addrs = Except.ok kept →
      kept = addrs.filter keepAddr ∧
      ∀ a ∈ kept, containsSub a "127.0.0.1".toList = false ∧
        containsSub a "::1".toList = false) ∧
    (∀ a ∈ addrs, ("127.0.0.1".toList <:+: a ∨ "::1".toList <:+: a) →
      a ∉ addrs.filter keepAddr) ∧
    (addrs.filter keepAddr = [] →
      build_ticket_addrs addrs =
        Except.error "No valid listen addresses obtained") := by
  refine ⟨?_, ?_, ?_⟩
  · intro kept h
    rw [build_ticket_addrs] at h
    by_cases he : (addrs.filter keepAddr).isEmpty
    · simp only [he, if_pos] at h
      exact Except.noConfusion h
    · simp only [he, if_neg, Bool.false_eq_true, not_false_eq_true] at h
      obtain rfl := (Except.ok.inj h).symm
      refine ⟨rfl, ?_⟩
      intro a ha
      have hk : keepAddr a = true := (List.mem_filter.mp ha).2
      rw [keepAddr, Bool.and_eq_true, Bool.not_eq_true',
        Bool.not_eq_true'] at hk
      exact hk
  · intro a _ hinf hmem
    have hk : keepAddr a = true := (List.mem_filter.mp hmem).2
    rw [keepAddr, Bool.and_eq_true, Bool.not_eq_true',
      Bool.not_eq_true'] at hk
    rcases hinf with hi | hi
    · rw [containsSub_of_substring _ a hi] at hk
      exact Bool.noConfusion hk.1
    · rw [containsSub_of_substring _ a hi] at hk
      exact Bool.noConfusion hk.2
  · intro h
    rw [build_ticket_addrs, h]
    rfl

/-- Witness for `build_ticket_addrs_filtering`: the localhost listener is
dropped, the LAN address is kept, and the kept address contains neither
banned substring. -/
theorem build_ticket_addrs_filtering_witness :
    build_ticket_addrs
        ["/ip4/127.0.0.1/tcp/1".toList, "/ip4/10.0.0.5/tcp/1".toList] =
      Except.ok ["/ip4/10.0.0.5/tcp/1".toList] ∧
    containsSub "/ip4/10.0.0.5/tcp/1".toList "127.0.0.1".toList = false ∧
    containsSub "/ip4/10.0.0.5/tcp/1".toList "::1".toList = false := by
  have h := ((build_ticket_addrs_filtering
    ["/ip4/127.0.0.1/tcp/1".toList, "/ip4/10.0.0.5/tcp/1".toList]).1
    ["/ip4/10.0.0.5/tcp/1".toList] rfl).2
    "/ip4/10.0.0.5/tcp/1".toList (by simp)
  exact ⟨rfl, h.1, h.2⟩

/-! ## CBOR round trip (C8) -/

/-- Parsing inverts the head encoding for any major type and any argument
below 2^64. -/
theorem parseHead_encodeHead (m n : Nat) (rest : List Nat)
    (hm : m < 8) (hn : n < 18446744073709551616) :
    parseHead (encodeHead m n ++ rest) = some (m, n, rest) := by
  by_cases h1 : n < 24
  · have hdiv : (m * 32 + n) / 32 = m := by omega
    have hmod : (m * 32 + n) % 32 = n := by omega
    rw [encodeHead, if_pos h1]
    simp only [List.cons_append, List.nil_append, parseHead, hdiv, hmod]
    rw [if_pos h1]
  · by_cases h2 : n < 256
    · have hdiv : (m * 32 + 24) / 32 = m := by omega
      have hmod : (m * 32 + 24) % 32 = 24 := by omega
      rw [encodeHead, if_neg h1, if_pos h2]
      simp [parseHead, hdiv, hmod]
    · by_cases h3 : n < 65536
      · have hdiv : (m * 32 + 25) / 32 = m := by omega
        have hmod : (m * 32 + 25) % 32 = 25 := by omega
        rw [encodeHead, if_neg h1, if_neg h2, if_pos h3]
        simp [parseHead, hdiv, hmod]
        omega
      · by_cases h4 : n < 4294967296
        · have hdiv : (m * 32 + 26) / 32 = m := by omega
          have hmod : (m * 32 + 26) % 32 = 26 := by omega
          rw [encodeHead, if_neg h1, if_neg h2, if_neg h3, if_pos h4]
          simp [parseHead, hdiv, hmod]
          omega
        · have hdiv : (m * 32 + 27) / 32 = m := by omega
          have hmod : (m * 32 + 27) % 32 = 27 := by omega
          rw [encodeHead, if_neg h1, if_neg h2, if_neg h3, if_neg h4]
          simp [parseHead, hdiv, hmod]
          omega

/-- Parsing inverts the unsigned-integer encoding. -/
theorem parseUint_encodeUint (n : Nat) (rest : List Nat)
    (hn : n < 18446744073709551616) :
    parseUint (encodeUint n ++ rest) = some (n, rest) := by
  rw [parseUint, encodeUint, parseHead_encodeHead 0 n rest (by omega) hn]

/-- Parsing inverts the byte-string encoding. -/
theorem parseBytes_encodeBytes (b rest : List Nat)
    (hb : b.length < 18446744073709551616) :
    parseBytes (encodeBytes b ++ rest) = some (b, rest) := by
  rw [encodeBytes, List.append_assoc, parseBytes,
    parseHead_encodeHead 2 b.length (b ++ rest) (by omega) hb]
  have hle : b.length ≤ (b ++ rest).length := by simp
  simp [hle, List.take_left, List.drop_left]

/-- Parsing inverts the text-string encoding. -/
theorem parseTextBytes_encodeTextBytes (b rest : List Nat)
    (hb : b.length < 18446744073709551616) :
    parseTextBytes (encodeTextBytes b ++ rest) = some (b, rest) := by
  rw [encodeTextBytes, List.append_assoc, parseTextBytes,
    parseHead_encodeHead 3 b.length (b ++ rest) (by omega) hb]
  have hle : b.length ≤ (b ++ rest).length := by simp
  simp [hle, List.take_left, List.drop_left]

/-- Reading back an encoded field key succeeds and drops the key. -/
theorem expectText_encodeTextBytes (key rest : List Nat)
    (hk : key.length < 18446744073709551616) :
    expectText key (encodeTextBytes key ++ rest) = some rest := by
  rw [expectText, parseTextBytes_encodeTextBytes key rest hk]
  simp

/-- Parsing inverts a sequence of byte-string encodings. -/
theorem parseByteSeq_encode (bs : List (List Nat)) :
    ∀ rest : List Nat,
      (∀ b ∈ bs, b.length < 18446744073709551616) →
      parseByteSeq bs.length ((bs.map encodeBytes).flatten ++ rest) =
        some (bs, rest) := by
  induction bs with
  | nil =>
    intro rest _
    simp [parseByteSeq]
  | cons b bs' IH =>
    intro rest hall
    rw [List.length_cons, List.map_cons, List.flatten_cons,
      List.append_assoc, parseByteSeq,
      parseBytes_encodeBytes b _ (hall b (List.mem_cons_self b bs'))]
    simp [IH rest (fun x hx => hall x (List.mem_cons_of_mem b hx))]

/-- Parsing inverts a sequence of unsigned-integer encodings. -/
theorem parseUintSeq_encode (vs : List Nat) :
    ∀ rest : List Nat,
      (∀ v ∈ vs, v < 18446744073709551616) →
      parseUintSeq vs.length ((vs.map encodeUint).flatten ++ rest) =
        some (vs, rest) := by
  induction vs with
  | nil =>
    intro rest _
    simp [parseUintSeq]
  | cons v vs' IH =>
    intro rest hall
    rw [List.length_cons, List.map_cons, List.flatten_cons,
      List.append_assoc, parseUintSeq,
      parseUint_encodeUint v _ (hall v (List.mem_cons_self v vs'))]
    simp [IH rest (fun x hx => hall x (List.mem_cons_of_mem v hx))]

/-- The variant-name codec is inverse on the two variants. -/
theorem decodeProtocolName_protocolName (p : TransportProtocol) :
    decodeProtocolName (protocolName p) = some p := by
  cases p <;> rfl

/-- `parseByteSeq_encode` with the element count abstracted, as it occurs
in the decoder after the array head is read back. -/
theorem parseByteSeq_encode_count (n : Nat) (bs : List (List Nat))
    (rest : List Nat) (hn : n = bs.length)
    (hall : ∀ b ∈ bs, b.length < 18446744073709551616) :
    parseByteSeq n ((bs.map encodeBytes).flatten ++ rest) =
      some (bs, rest) := by
  rw [hn]
  exact parseByteSeq_encode bs rest hall

/-- `parseUintSeq_encode` with the count abstracted and no trailing bytes,
as it occurs at the very end of the ticket encoding. -/
theorem parseUintSeq_encode_nil (n : Nat) (vs : List Nat)
    (hn : n = vs.length)
    (hall : ∀ v ∈ vs, v < 18446744073709551616) :
    parseUintSeq n ((vs.map encodeUint).flatten) = some (vs, []) := by
  have h := parseUintSeq_encode vs [] hall
  rw [List.append_nil] at h
  rw [hn]
  exact h

set_option maxHeartbeats 1000000 in
/-- C8: encoding a `SessionTicket` to CBOR and decoding the bytes yields
the ticket back, field for field: same peer id bytes, same address list in
the same order, same transport variant, same nonce, same 64-entry
signature array.  The hypotheses are the width invariants the Rust types
guarantee (`u64` nonce, vector lengths below 2^64, a 64-byte signature of
`u8` entries). -/
theorem decodeTicket_encodeTicket (t : SessionTicket)
    (hpid : t.peer_id.length < 18446744073709551616)
    (haddr : t.addrs.length < 18446744073709551616)
    (haddrs : ∀ a ∈ t.addrs, a.length < 18446744073709551616)
    (hnonce : t.nonce < 18446744073709551616)
    (hsig : t.sig.length = 64)
    (hsige : ∀ v ∈ t.sig, v < 18446744073709551616) :
    decodeTicket (encodeTicket t) = some t := by
  obtain ⟨pid, addrs, proto, nonce, sig⟩ := t
  simp only at hpid haddr haddrs hnonce hsig hsige
  have hk1 : (strBytes "peer_id").length < 18446744073709551616 := by decide
  have hk2 : (strBytes "addrs").length < 18446744073709551616 := by decide
  have hk3 : (strBytes "protocol").length < 18446744073709551616 := by decide
  have hk4 : (strBytes "nonce").length < 18446744073709551616 := by decide
  have hk5 : (strBytes "sig").length < 18446744073709551616 := by decide
  have hpn : (protocolName proto).length < 18446744073709551616 := by
    cases proto <;> decide
  rw [encodeTicket, decodeTicket]
  simp only [List.append_assoc]
  rw [parseHead_encodeHead 5 5 _ (by norm_num) (by norm_num)]
  simp
  rw [expectText_encodeTextBytes _ _ hk1]
  simp
  rw [parseBytes_encodeBytes _ _ hpid]
  simp
  rw [expectText_encodeTextBytes _ _ hk2]
  simp
  rw [parseHead_encodeHead 4 addrs.length _ (by norm_num) haddr]
  simp
  rw [parseByteSeq_encode addrs _ haddrs]
  simp
  rw [expectText_encodeTextBytes _ _ hk3]
  simp
  rw [parseTextBytes_encodeTextBytes _ _ hpn]
  simp
  rw [decodeProtocolName_protocolName]
  simp
  rw [expectText_encodeTextBytes _ _ hk4]
  simp
  rw [parseUint_encodeUint _ _ hnonce]
  simp
  rw [expectText_encodeTextBytes _ _ hk5]
  simp
  rw [parseHead_encodeHead 4 sig.length _ (by norm_num) (by omega)]
  simp [hsig]
  rw [parseUintSeq_encode_nil 64 sig hsig.symm hsige]
  simp

/-- A concrete ticket for the round-trip witness. -/
def sampleTicket : SessionTicket :=
  { peer_id := [1, 2]
  , addrs := [[3], [4, 5]]
  , protocol := TransportProtocol.Quic
  , nonce := 777
  , sig := List.replicate 64 9 }

/-- Witness for `decodeTicket_encodeTicket` at `sampleTicket`. -/
theorem decodeTicket_encodeTicket_witness :
    decodeTicket (encodeTicket sampleTicket) = some sampleTicket :=
  decodeTicket_encodeTicket sampleTicket (by decide) (by decide)
    (by decide) (by decide) (by decide) (by decide)

end Fastdrop
